import Mathlib

/-!
Verification of the storage-node placement core of node-storinfo
(src/lib/client.js), as a shallow embedding in Lean 4.

Modelling conventions:
* A storage node ("shark") keeps only the fields the placement logic reads:
  manta_storage_id, datacenter, availableMB.
* JS objects used as maps become association lists; Object.keys order is the
  insertion order, which the association list preserves.
* Math.random draws become an explicit entropy stream rng : Nat -> Nat with a
  running counter k; a draw in [min, max] is modelled as min + rng k % (max - min + 1).
* JS while-loops become structural recursion on a fuel argument that is always
  at least the loop's worst-case iteration count at every call site.
* A thrown TypeError / failed assertion (property access on null or undefined,
  array index out of bounds followed by a property access) is the outcome
  ChooseOutcome.crash; callback deliveries cb(err, null) and cb(null, sharks)
  are the outcomes insufficient and ok.
-/

namespace Storinfo

/-- A storage node record, restricted to the fields read by choose. -/
structure Node where
  manta_storage_id : String
  datacenter : String
  availableMB : Nat
deriving DecidableEq, Repr

/-- A mapping from datacenter name to its list of storage nodes
(dcSharkMap / operatorDcSharkMap). -/
abbrev SharkMap := List (String × List Node)

/-- JS object property lookup on an association list. -/
def lookup (m : SharkMap) (k : String) : Option (List Node) :=
  (m.find? (fun p => p.1 == k)).map Prod.snd

/-- set[i].availableMB (0 when out of range; only used in range). -/
def availAt (l : List Node) (i : Nat) : Nat :=
  ((l.get? i).map Node.availableMB).getD 0

/-- set[i].manta_storage_id (empty when out of range; only used in range). -/
def idAt (l : List Node) (i : Nat) : String :=
  ((l.get? i).map Node.manta_storage_id).getD ""

/-- set[i].datacenter (empty when out of range; only used in range). -/
def dcAt (l : List Node) (i : Nat) : String :=
  ((l.get? i).map Node.datacenter).getD ""

/-- A datacenter list sorted ascending by availableMB. -/
def sortedByAvail (l : List Node) : Prop :=
  List.Pairwise (fun a b => a.availableMB ≤ b.availableMB) l

/-- The comparison function storageZoneComparator of client.js. -/
def storageZoneComparator (a b : Node) : Int :=
  if a.availableMB < b.availableMB then -1
  else if b.availableMB < a.availableMB then 1
  else 0

/-- Insert one zone into a list already sorted by storageZoneComparator. -/
def insertZone (a : Node) : List Node → List Node
  | [] => [a]
  | b :: t => if storageZoneComparator a b ≤ 0 then a :: b :: t else b :: insertZone a t

/-- Array.prototype.sort with storageZoneComparator, modelled as the stable
insertion sort over that comparator. -/
def sortZones : List Node → List Node
  | [] => []
  | a :: t => insertZone a (sortZones t)

/-- The while-loop of lower_bound, with fuel ≥ high - low. -/
def lbGo (set : List Node) (size : Nat) : Nat → Nat → Nat → Nat
  | 0, low, _ => low
  | fuel + 1, low, high =>
    if high ≤ low then low
    else
      let mid := low + (high - low) / 2
      if size ≤ availAt set mid then lbGo set size fuel low mid
      else lbGo set size fuel (mid + 1) high

/-- lower_bound of client.js (as called by choose, with low = 0 and
high = set.length): the modified binary search returning the first index whose
availableMB is at least size, or -1. -/
def lower_bound (set : List Node) (size : Nat) : Int :=
  let low := lbGo set size (set.length + 1) 0 set.length
  if low < set.length ∧ size ≤ availAt set low then (low : Int) else -1

/-- size = Math.ceil((opts.size || 0) / 1048576) || this.defMaxSizeMB. -/
def ceilMB (bytes : Nat) : Nat := (bytes + 1048575) / 1048576

/-- The effective size (in MB) used by choose. -/
def effectiveSize (osize : Option Nat) (defMaxSizeMB : Nat) : Nat :=
  let s := ceilMB (osize.getD 0)
  if s = 0 then defMaxSizeMB else s

/-- replicas = opts.replicas || DEF_NUM_COPIES (2); 0 is falsy in JS. -/
def replicasOf (r : Option Nat) : Nat :=
  match r with
  | none => 2
  | some 0 => 2
  | some (n + 1) => n + 1

/-- this.defMaxSizeMB = opts.defaultMaxStreamingSizeMB ||
DEF_MAX_STREAMING_SIZE_MB (5120); 0 is falsy in JS. -/
def defMaxOf (o : Option Nat) : Nat :=
  match o with
  | none => 5120
  | some 0 => 5120
  | some (n + 1) => n + 1

/-- One chosen shark, as returned by host(): the datacenter and
manta_storage_id fields of the selected node. -/
structure Pick where
  datacenter : String
  manta_storage_id : String
deriving DecidableEq, Repr

/-- The mutable state threaded through host(): the client's round-robin
cursor dcIndex, the per-invocation seen list, and the entropy counter. -/
structure HostState where
  dcIndex : Int
  seen : List String
  k : Nat
deriving DecidableEq, Repr

/-- The circular forward scan of host(): the do/while loop that advances s,
wraps from the end of the list back to the qualifying offset, gives up when it
comes back to the starting index, and otherwise stops at the first index whose
id is not in seen. Fuel is dc.length + 1 at the call site, which always covers
the cycle length. -/
def scanStep (dc : List Node) (offset start : Nat) (seen : List String) :
    Nat → Nat → Option Nat
  | 0, _ => none
  | fuel + 1, s =>
    let s1 := if s + 1 = dc.length then offset else s + 1
    if s1 = start then none
    else if idAt dc s1 ∈ seen then scanStep dc offset start seen fuel s1
    else some s1

/-- The per-datacenter node selection of host(): a random index in the
qualifying sub-range [offset, dc.length); if its id is already seen, the
circular scan. Returns the chosen index. -/
def pickNode (dc : List Node) (offset : Nat) (seen : List String) (r : Nat) :
    Option Nat :=
  let s0 := offset + r % (dc.length - offset)
  if idAt dc s0 ∈ seen then scanStep dc offset s0 seen (dc.length + 1) s0
  else some s0

/-- Result of one host() call. -/
inductive HostRes where
  | crash
  | exhausted
  | node (p : Pick)
deriving DecidableEq, Repr

/-- host() of choose: advance the round-robin cursor, look the datacenter up
in the shark map, pick a node. dcs is the (shuffled) candidate list, offsets
the qualifying offsets in candidate order (client.js never permutes offsets).
Out-of-range accesses that would throw in JS produce crash. -/
def hostF (m : SharkMap) (dcs : List String) (offsets : List Nat)
    (rng : Nat → Nat) (st : HostState) : HostRes × HostState :=
  let d1 : Int := st.dcIndex + 1
  let ndx : Int := if (dcs.length : Int) ≤ d1 then 0 else d1
  let stB : HostState := { st with dcIndex := ndx }
  if ndx < 0 ∨ dcs.length ≤ ndx.toNat then (.crash, stB)
  else
    match lookup m (dcs.getD ndx.toNat "") with
    | none => (.crash, stB)
    | some dc =>
      let offset := offsets.getD ndx.toNat 0
      if dc.length ≤ offset then (.crash, stB)
      else
        let stC : HostState := { stB with k := st.k + 1 }
        match pickNode dc offset st.seen (rng st.k) with
        | none => (.exhausted, stC)
        | some s1 =>
          (.node ⟨dcAt dc s1, idAt dc s1⟩,
            { stC with seen := st.seen ++ [idAt dc s1] })

/-- Result of one set() call. -/
inductive BuildRes where
  | crash
  | fail
  | built (l : List Pick)
deriving DecidableEq, Repr

/-- set() of choose: replicas successive host() calls; null as soon as one
host() call returns null. -/
def setLoop (m : SharkMap) (dcs : List String) (offsets : List Nat)
    (rng : Nat → Nat) : Nat → HostState → BuildRes × HostState
  | 0, st => (.built [], st)
  | j + 1, st =>
    let hres := hostF m dcs offsets rng st
    match hres.1 with
    | .crash => (.crash, hres.2)
    | .exhausted => (.fail, hres.2)
    | .node p =>
      let rres := setLoop m dcs offsets rng j hres.2
      match rres.1 with
      | .crash => (.crash, rres.2)
      | .fail => (.fail, rres.2)
      | .built l => (.built (p :: l), rres.2)

/-- tuple.map(mapFun).reduce(reduceFun, []): the distinct datacenter names of
a tuple, in first-appearance order. -/
def dedupFold (l : List String) : List String :=
  l.foldl (fun last now => if now ∈ last then last else last ++ [now]) []

/-- The outcome of one choose call. -/
inductive ChooseOutcome where
  | crash
  | insufficient (size : Nat) (cause : String)
  | ok (sharks : List (List Pick))
deriving DecidableEq, Repr

/-- The sprintf message of the too-few-datacenters precheck. -/
def countMsg (replicas nDcs : Nat) : String :=
  toString replicas ++ " copies requested, but only " ++ toString nDcs ++
    " DC(s) have sufficient space"

def exceedsMsg : String :=
  "copies requested exceeds number of available storage nodes"

def fewDcsMsg : String := "insufficient number of DCs selected"

def noDcMsg : String := "no DC with sufficient space"

/-- The for (i = 0; i < 3; i++) loop of choose: build up to three sets,
failing the call when the first set cannot be built or when a built set fails
the multi-datacenter spread check, and silently omitting later sets that fail
to build. -/
def chooseLoop (m : SharkMap) (dcs : List String) (offsets : List Nat)
    (rng : Nat → Nat) (multiDC : Bool) (replicas size : Nat) :
    Nat → HostState → List (List Pick) → ChooseOutcome
  | 0, _, sharks => .ok sharks
  | i + 1, st, sharks =>
    let sres := setLoop m dcs offsets rng replicas st
    match sres.1 with
    | .crash => .crash
    | .fail =>
      if sharks.length = 0 then .insufficient size exceedsMsg
      else chooseLoop m dcs offsets rng multiDC replicas size i sres.2 sharks
    | .built tuple =>
      if sharks.length = 0 ∧ tuple.length < replicas then
        .insufficient size exceedsMsg
      else if multiDC ∧ 1 < replicas ∧
          (dedupFold (tuple.map Pick.datacenter)).length < 2 then
        .insufficient size fewDcsMsg
      else chooseLoop m dcs offsets rng multiDC replicas size i sres.2
        (sharks ++ [tuple])

/-- filterDatacenters, run over the datacenter name list: collect every
datacenter whose lower_bound is not -1, paired with that offset. none models
the TypeError thrown when a name is missing from the shark map. -/
def filterDCs (m : SharkMap) (size : Nat) : List String →
    Option (List (String × Nat))
  | [] => some []
  | d :: rest =>
    match lookup m d with
    | none => none
    | some set =>
      match filterDCs m size rest with
      | none => none
      | some tail =>
        let l := lower_bound set size
        some (if l = -1 then tail else (d, l.toNat) :: tail)

/-- Swap two positions of a list (identity when either is out of range). -/
def listSwap (l : List α) (i j : Nat) : List α :=
  match l.get? i, l.get? j with
  | some a, some b => (l.set i b).set j a
  | _, _ => l

/-- The Fisher-Yates loop of shuffle: at countdown value m + 1 draw
i = rng k % (m + 1) and swap positions m and i. -/
def shuffleGo (rng : Nat → Nat) : Nat → Nat → List String → List String
  | _, 0, a => a
  | k, m + 1, a => shuffleGo rng (k + 1) m (listSwap a m (rng k % (m + 1)))

/-- The client fields read and written by choose. At construction dcSharkMap,
operatorDcSharkMap and datacenters are null and operatorDatacenters is
undefined: all four are Options. -/
structure ClientState where
  dcSharkMap : Option SharkMap
  operatorDcSharkMap : Option SharkMap
  datacenters : Option (List String)
  operatorDatacenters : Option (List String)
  dcIndex : Int
  multiDC : Bool
  defMaxSizeMB : Nat
deriving Repr

/-- The at-construction client state (StorinfoClient constructor). -/
def initialState (multiDC : Bool) (defMaxSizeMB : Nat) : ClientState :=
  { dcSharkMap := none
    operatorDcSharkMap := none
    datacenters := none
    operatorDatacenters := none
    dcIndex := -1
    multiDC := multiDC
    defMaxSizeMB := defMaxSizeMB }

/-- Sort every datacenter list of a shark map with storageZoneComparator. -/
def sortMap (m : SharkMap) : SharkMap :=
  m.map (fun p => (p.1, sortZones p.2))

/-- sortAndStoreDcs of client.js: sort each datacenter list of both maps in
place, store the key arrays as this.datacenters / this.operatorDatacenters,
and install both maps. -/
def sortAndStoreDcs (st : ClientState) (dcObj opDcObj : SharkMap) :
    ClientState :=
  { st with
    datacenters := some (dcObj.map Prod.fst)
    operatorDatacenters := some (opDcObj.map Prod.fst)
    dcSharkMap := some (sortMap dcObj)
    operatorDcSharkMap := some (sortMap opDcObj) }

/-- The options object of one choose call (opts.size in bytes). -/
structure ChooseOpts where
  size : Option Nat
  replicas : Option Nat
  isOperator : Bool
deriving DecidableEq, Repr

/-- choose of client.js. The entropy stream rng supplies the shuffle draws
(indices 0 .. dcs.length - 1) and then one draw per host() call. -/
def choose (st : ClientState) (opts : ChooseOpts) (rng : Nat → Nat) :
    ChooseOutcome :=
  let replicas := replicasOf opts.replicas
  let size := effectiveSize opts.size st.defMaxSizeMB
  let mapO := if opts.isOperator then st.operatorDcSharkMap else st.dcSharkMap
  let namesO :=
    if opts.isOperator then st.operatorDatacenters else st.datacenters
  match mapO, namesO with
  | some m, some names =>
    match filterDCs m size names with
    | none => .crash
    | some cands =>
      let dcs := cands.map Prod.fst
      let offsets := cands.map Prod.snd
      if dcs.length = 0 then .insufficient size noDcMsg
      else if 1 < replicas ∧ st.multiDC ∧ dcs.length < 2 then
        .insufficient size (countMsg replicas dcs.length)
      else
        chooseLoop m (shuffleGo rng 0 dcs.length dcs) offsets rng st.multiDC
          replicas size 3 { dcIndex := st.dcIndex, seen := [], k := dcs.length } []
  | _, _ => .crash

/-! ## Basic instances and index lemmas -/

instance : DecidableRel (fun a b : Node => a.availableMB ≤ b.availableMB) :=
  fun _ _ => Nat.decLe _ _

instance (l : List Node) : Decidable (sortedByAvail l) := by
  unfold sortedByAvail; infer_instance

theorem availAt_get {l : List Node} {i : Nat} (h : i < l.length) :
    availAt l i = (l.get ⟨i, h⟩).availableMB := by
  unfold availAt
  rw [List.get?_eq_getElem?, List.getElem?_eq_getElem h]
  rfl

theorem sorted_avail_le {l : List Node} (hs : sortedByAvail l) :
    ∀ i j, i ≤ j → j < l.length → availAt l i ≤ availAt l j := by
  intro i j hij hj
  rcases Nat.eq_or_lt_of_le hij with rfl | hlt
  · exact le_refl _
  · have hi : i < l.length := lt_trans hlt hj
    have hp := (List.pairwise_iff_get.mp hs) ⟨i, hi⟩ ⟨j, hj⟩ (by simpa using hlt)
    rw [availAt_get hi, availAt_get hj]
    exact hp

/-! ## Correctness of the modified binary search (lower_bound) -/

theorem lbGo_inv {set : List Node} {size : Nat} (hs : sortedByAvail set) :
    ∀ fuel low high, low ≤ high → high ≤ set.length → high - low ≤ fuel →
      (∀ i, i < low → availAt set i < size) →
      (∀ i, high ≤ i → i < set.length → size ≤ availAt set i) →
      low ≤ lbGo set size fuel low high ∧ lbGo set size fuel low high ≤ high ∧
      (∀ i, i < lbGo set size fuel low high → availAt set i < size) ∧
      (∀ i, lbGo set size fuel low high ≤ i → i < set.length →
        size ≤ availAt set i) := by
  intro fuel
  induction fuel with
  | zero =>
    intro low high hlh _ hf hA hB
    have heq : low = high := by omega
    subst heq
    exact ⟨le_refl _, le_refl _, hA, hB⟩
  | succ fuel ih =>
    intro low high hlh hhl hf hA hB
    rw [lbGo]
    by_cases hle : high ≤ low
    · have heq : low = high := by omega
      subst heq
      simp only [if_pos hle]
      exact ⟨le_refl _, le_refl _, hA, hB⟩
    · simp only [if_neg hle]
      have hlow : low < high := by omega
      have hmid1 : low ≤ low + (high - low) / 2 := by omega
      have hmid2 : low + (high - low) / 2 < high := by omega
      by_cases hcmp : size ≤ availAt set (low + (high - low) / 2)
      · simp only [if_pos hcmp]
        have hB' : ∀ i, low + (high - low) / 2 ≤ i → i < set.length →
            size ≤ availAt set i := by
          intro i hmi hil
          exact le_trans hcmp (sorted_avail_le hs _ i hmi hil)
        have h' := ih low (low + (high - low) / 2) hmid1 (by omega) (by omega) hA hB'
        exact ⟨h'.1, le_trans h'.2.1 (by omega), h'.2.2.1, h'.2.2.2⟩
      · simp only [if_neg hcmp]
        have hA' : ∀ i, i < low + (high - low) / 2 + 1 → availAt set i < size := by
          intro i hi
          by_cases hil : i < low
          · exact hA i hil
          · have : availAt set i ≤ availAt set (low + (high - low) / 2) :=
              sorted_avail_le hs i _ (by omega) (by omega)
            omega
        have h' := ih (low + (high - low) / 2 + 1) high (by omega) hhl (by omega) hA' hB
        exact ⟨by omega, h'.2.1, h'.2.2.1, h'.2.2.2⟩

theorem lower_bound_spec (set : List Node) (size : Nat) (hs : sortedByAvail set) :
    (lower_bound set size = -1 ↔ ∀ i, i < set.length → availAt set i < size) ∧
    (∀ i : Nat, lower_bound set size = (i : Int) ↔
      i < set.length ∧ size ≤ availAt set i ∧
        ∀ j, j < i → availAt set j < size) := by
  have h := @lbGo_inv set size hs (set.length + 1) 0 set.length (Nat.zero_le _)
    (le_refl _) (by omega) (fun i hi => absurd hi (Nat.not_lt_zero i))
    (fun i h1 h2 => absurd (Nat.lt_of_le_of_lt h1 h2) (lt_irrefl _))
  set r := lbGo set size (set.length + 1) 0 set.length with hr
  obtain ⟨-, hrh, hA, hB⟩ := h
  constructor
  · constructor
    · intro hm1 i hi
      unfold lower_bound at hm1
      rw [← hr] at hm1
      by_cases hguard : r < set.length ∧ size ≤ availAt set r
      · rw [if_pos hguard] at hm1
        omega
      · have hrl : r = set.length ∨ availAt set r < size := by
          rcases Nat.lt_or_ge r set.length with hc | hc
          · right
            rcases Nat.lt_or_ge (availAt set r) size with hc2 | hc2
            · exact hc2
            · exact absurd ⟨hc, hc2⟩ hguard
          · left; omega
        rcases hrl with hrl | hrl
        · exact hA i (by omega)
        · rcases Nat.lt_or_ge i r with hir | hir
          · exact hA i hir
          · have hrlen : r < set.length := Nat.lt_of_le_of_lt hir hi
            have := hB r (le_refl _) hrlen
            omega
    · intro hall
      unfold lower_bound
      rw [← hr]
      have hng : ¬ (r < set.length ∧ size ≤ availAt set r) := by
        intro ⟨h1, h2⟩
        exact absurd (hall r h1) (by omega)
      rw [if_neg hng]
  · intro i
    constructor
    · intro heq
      unfold lower_bound at heq
      rw [← hr] at heq
      by_cases hguard : r < set.length ∧ size ≤ availAt set r
      · rw [if_pos hguard] at heq
        have hri : r = i := by exact_mod_cast heq
        subst hri
        exact ⟨hguard.1, hguard.2, fun j hj => hA j hj⟩
      · rw [if_neg hguard] at heq
        exact absurd heq (by omega)
    · intro ⟨hi, hsz, hsmall⟩
      have hri : r = i := by
        rcases Nat.lt_or_ge r i with hc | hc
        · have hrlen : r < set.length := Nat.lt_trans hc hi
          have := hB r (le_refl _) hrlen
          have := hsmall r hc
          omega
        · rcases Nat.lt_or_ge i r with hc2 | hc2
          · have := hA i hc2
            omega
          · omega
      unfold lower_bound
      rw [← hr, hri, if_pos ⟨hi, hsz⟩]

/-- C4: on a list sorted ascending by capacity, lower_bound returns the
smallest index whose availableMB is at least the requested size and -1 when no
index qualifies; in particular the empty list gives -1, a single-element list
exactly matching the size gives 0, a size above every element gives -1, and a
list where every node qualifies gives 0. -/
theorem claim_C4_lower_bound_correct (set : List Node) (size : Nat)
    (hs : sortedByAvail set) :
    (lower_bound set size = -1 ↔ ∀ i, i < set.length → availAt set i < size) ∧
    (∀ i : Nat, lower_bound set size = (i : Int) ↔
      i < set.length ∧ size ≤ availAt set i ∧
        ∀ j, j < i → availAt set j < size) ∧
    lower_bound [] size = -1 ∧
    (∀ n : Node, size ≤ n.availableMB → lower_bound [n] size = 0) ∧
    ((∀ i, i < set.length → availAt set i < size) → lower_bound set size = -1) ∧
    (set ≠ [] → (∀ i, i < set.length → size ≤ availAt set i) →
      lower_bound set size = 0) := by
  have h := lower_bound_spec set size hs
  refine ⟨h.1, h.2, ?_, ?_, h.1.mpr, ?_⟩
  · have h0 := lower_bound_spec [] size List.Pairwise.nil
    exact h0.1.mpr (fun i hi => absurd hi (Nat.not_lt_zero i))
  · intro n hn
    have h1 := lower_bound_spec [n] size (List.pairwise_singleton _ _)
    exact (h1.2 0).mpr ⟨by simp, by simpa [availAt] using hn,
      fun j hj => absurd hj (Nat.not_lt_zero j)⟩
  · intro hne hall
    refine (h.2 0).mpr ⟨?_, ?_, fun j hj => absurd hj (Nat.not_lt_zero j)⟩
    · exact List.length_pos.mpr hne
    · exact hall 0 (List.length_pos.mpr hne)

/-- Witness for C4 at a concrete sorted two-element list. -/
theorem claim_C4_lower_bound_correct_witness :
    (lower_bound [⟨"x","d",1⟩, ⟨"y","d",5⟩] 3 = -1 ↔
      ∀ i, i < (2 : Nat) → availAt [⟨"x","d",1⟩, ⟨"y","d",5⟩] i < 3) ∧
    (∀ i : Nat, lower_bound [⟨"x","d",1⟩, ⟨"y","d",5⟩] 3 = (i : Int) ↔
      i < 2 ∧ 3 ≤ availAt [⟨"x","d",1⟩, ⟨"y","d",5⟩] i ∧
        ∀ j, j < i → availAt [⟨"x","d",1⟩, ⟨"y","d",5⟩] j < 3) ∧
    lower_bound [] 3 = -1 ∧
    (∀ n : Node, 3 ≤ n.availableMB → lower_bound [n] 3 = 0) ∧
    ((∀ i, i < (2 : Nat) → availAt [⟨"x","d",1⟩, ⟨"y","d",5⟩] i < 3) →
      lower_bound [⟨"x","d",1⟩, ⟨"y","d",5⟩] 3 = -1) ∧
    (([⟨"x","d",1⟩, ⟨"y","d",5⟩] : List Node) ≠ [] →
      (∀ i, i < (2 : Nat) → 3 ≤ availAt [⟨"x","d",1⟩, ⟨"y","d",5⟩] i) →
      lower_bound [⟨"x","d",1⟩, ⟨"y","d",5⟩] 3 = 0) :=
  claim_C4_lower_bound_correct [⟨"x","d",1⟩, ⟨"y","d",5⟩] 3 (by decide)

/-! ## Sorting on topology install (sortAndStoreDcs) -/

theorem cmp_le_iff (a b : Node) :
    storageZoneComparator a b ≤ 0 ↔ a.availableMB ≤ b.availableMB := by
  unfold storageZoneComparator
  rcases Nat.lt_trichotomy a.availableMB b.availableMB with h | h | h
  · rw [if_pos h]; omega
  · rw [if_neg (by omega), if_neg (by omega)]; omega
  · rw [if_neg (by omega), if_pos h]; omega

theorem mem_insertZone (a x : Node) :
    ∀ l, x ∈ insertZone a l ↔ x = a ∨ x ∈ l := by
  intro l
  induction l with
  | nil => simp [insertZone]
  | cons b t ih =>
    unfold insertZone
    by_cases h : storageZoneComparator a b ≤ 0
    · rw [if_pos h]
      simp only [List.mem_cons]
    · rw [if_neg h]
      simp only [List.mem_cons, ih]
      tauto

theorem sorted_insertZone (a : Node) :
    ∀ l, sortedByAvail l → sortedByAvail (insertZone a l) := by
  intro l
  induction l with
  | nil =>
    intro _
    unfold insertZone sortedByAvail
    exact List.pairwise_singleton _ _
  | cons b t ih =>
    intro hs
    unfold sortedByAvail at hs ⊢
    rw [List.pairwise_cons] at hs
    obtain ⟨hb, ht⟩ := hs
    unfold insertZone
    by_cases h : storageZoneComparator a b ≤ 0
    · rw [if_pos h]
      rw [List.pairwise_cons]
      refine ⟨?_, List.pairwise_cons.mpr ⟨hb, ht⟩⟩
      intro x hx
      have hab := (cmp_le_iff a b).mp h
      rcases List.mem_cons.mp hx with rfl | hx
      · exact hab
      · exact le_trans hab (hb x hx)
    · rw [if_neg h]
      rw [List.pairwise_cons]
      refine ⟨?_, ih ht⟩
      intro x hx
      rcases (mem_insertZone a x t).mp hx with rfl | hx
      · have hba := (cmp_le_iff x b).not.mp h
        omega
      · exact hb x hx

theorem sorted_sortZones : ∀ l, sortedByAvail (sortZones l) := by
  intro l
  induction l with
  | nil => exact List.Pairwise.nil
  | cons a t ih => exact sorted_insertZone a (sortZones t) ih

/-- C10: after every topology install through sortAndStoreDcs, every
per-datacenter list in both installed shark maps is sorted ascending by
availableMB, and the stored datacenter-name arrays are exactly the key lists
of the corresponding maps. -/
theorem claim_C10_install_sorts_and_stores_keys (st : ClientState)
    (dcObj opDcObj : SharkMap) :
    ∃ m1 m2,
      (sortAndStoreDcs st dcObj opDcObj).dcSharkMap = some m1 ∧
      (sortAndStoreDcs st dcObj opDcObj).operatorDcSharkMap = some m2 ∧
      (∀ p ∈ m1, sortedByAvail p.2) ∧
      (∀ p ∈ m2, sortedByAvail p.2) ∧
      (sortAndStoreDcs st dcObj opDcObj).datacenters = some (m1.map Prod.fst) ∧
      (sortAndStoreDcs st dcObj opDcObj).operatorDatacenters =
        some (m2.map Prod.fst) := by
  refine ⟨sortMap dcObj, sortMap opDcObj, rfl, rfl, ?_, ?_, ?_, ?_⟩
  · intro p hp
    simp only [sortMap, List.mem_map] at hp
    obtain ⟨q, -, rfl⟩ := hp
    exact sorted_sortZones q.2
  · intro p hp
    simp only [sortMap, List.mem_map] at hp
    obtain ⟨q, -, rfl⟩ := hp
    exact sorted_sortZones q.2
  · show some (dcObj.map Prod.fst) = some ((sortMap dcObj).map Prod.fst)
    rw [sortMap, List.map_map]
    rfl
  · show some (opDcObj.map Prod.fst) = some ((sortMap opDcObj).map Prod.fst)
    rw [sortMap, List.map_map]
    rfl

/-- Witness for C10 at a concrete unsorted two-node snapshot. -/
theorem claim_C10_install_sorts_and_stores_keys_witness :
    ∃ m1 m2,
      (sortAndStoreDcs (initialState true 5120)
        [("dc1", [⟨"y","dc1",7⟩, ⟨"x","dc1",2⟩])] []).dcSharkMap = some m1 ∧
      (sortAndStoreDcs (initialState true 5120)
        [("dc1", [⟨"y","dc1",7⟩, ⟨"x","dc1",2⟩])] []).operatorDcSharkMap =
        some m2 ∧
      (∀ p ∈ m1, sortedByAvail p.2) ∧
      (∀ p ∈ m2, sortedByAvail p.2) ∧
      (sortAndStoreDcs (initialState true 5120)
        [("dc1", [⟨"y","dc1",7⟩, ⟨"x","dc1",2⟩])] []).datacenters =
        some (m1.map Prod.fst) ∧
      (sortAndStoreDcs (initialState true 5120)
        [("dc1", [⟨"y","dc1",7⟩, ⟨"x","dc1",2⟩])] []).operatorDatacenters =
        some (m2.map Prod.fst) :=
  claim_C10_install_sorts_and_stores_keys (initialState true 5120)
    [("dc1", [⟨"y","dc1",7⟩, ⟨"x","dc1",2⟩])] []

/-! ## The circular scan of host() -/

/-- Number of forward steps (with wrap-around to offset at the end of the
list) needed to go from index s to index t inside [offset, len). -/
def cdist (len offset s t : Nat) : Nat :=
  if s < t then t - s else len - offset + t - s

theorem cdist_pos (len offset s t : Nat) (ht1 : offset ≤ t) (hs2 : s < len) :
    1 ≤ cdist len offset s t := by
  unfold cdist; split <;> omega

theorem cdist_le (len offset s t : Nat) (hs1 : offset ≤ s) (ht2 : t < len) :
    cdist len offset s t ≤ len - offset := by
  unfold cdist; split <;> omega

theorem cdist_self (len offset s : Nat) : cdist len offset s s = len - offset := by
  unfold cdist
  rw [if_neg (lt_irrefl s)]
  omega

theorem cdist_lt_self (len offset s t : Nat) (hs1 : offset ≤ s) (hs2 : s < len)
    (ht1 : offset ≤ t) (ht2 : t < len) (hne : t ≠ s) :
    cdist len offset s t < cdist len offset s s := by
  rw [cdist_self]
  unfold cdist
  split <;> omega

theorem cdist_next (len offset s t : Nat) (hol : offset < len)
    (hs1 : offset ≤ s) (hs2 : s < len) (ht1 : offset ≤ t) (ht2 : t < len)
    (hne : (if s + 1 = len then offset else s + 1) ≠ t) :
    cdist len offset (if s + 1 = len then offset else s + 1) t + 1 =
      cdist len offset s t := by
  unfold cdist
  by_cases hw : s + 1 = len
  · rw [if_pos hw] at hne ⊢
    rw [if_pos (by omega), if_neg (by omega)]
    omega
  · rw [if_neg hw] at hne ⊢
    by_cases hst : s < t
    · rw [if_pos (by omega), if_pos hst]
      omega
    · rw [if_neg (by omega), if_neg hst]
      omega

theorem scan_some_props (dc : List Node) (offset start : Nat)
    (seen : List String) :
    ∀ fuel s s1, offset ≤ s → s < dc.length →
      scanStep dc offset start seen fuel s = some s1 →
      offset ≤ s1 ∧ s1 < dc.length ∧ idAt dc s1 ∉ seen := by
  intro fuel
  induction fuel with
  | zero =>
    intro s s1 _ _ h
    exact absurd h (by simp [scanStep])
  | succ fuel ih =>
    intro s s1 hs1 hs2 h
    simp only [scanStep] at h
    by_cases h1 : (if s + 1 = dc.length then offset else s + 1) = start
    · rw [if_pos h1] at h
      exact absurd h (by simp)
    · rw [if_neg h1] at h
      by_cases h2 : idAt dc (if s + 1 = dc.length then offset else s + 1) ∈ seen
      · rw [if_pos h2] at h
        refine ih _ s1 ?_ ?_ h
        · split <;> omega
        · split <;> omega
      · rw [if_neg h2] at h
        have heq : (if s + 1 = dc.length then offset else s + 1) = s1 := by
          simpa using h
        refine ⟨?_, ?_, ?_⟩ <;> rw [← heq]
        · split <;> omega
        · split <;> omega
        · exact h2

theorem scan_some_unseen (dc : List Node) (offset start : Nat)
    (seen : List String) :
    ∀ fuel s s1, scanStep dc offset start seen fuel s = some s1 →
      idAt dc s1 ∉ seen := by
  intro fuel
  induction fuel with
  | zero =>
    intro s s1 h
    exact absurd h (by simp [scanStep])
  | succ fuel ih =>
    intro s s1 h
    simp only [scanStep] at h
    by_cases h1 : (if s + 1 = dc.length then offset else s + 1) = start
    · rw [if_pos h1] at h
      exact absurd h (by simp)
    · rw [if_neg h1] at h
      by_cases h2 : idAt dc (if s + 1 = dc.length then offset else s + 1) ∈ seen
      · rw [if_pos h2] at h
        exact ih _ s1 h
      · rw [if_neg h2] at h
        have heq : (if s + 1 = dc.length then offset else s + 1) = s1 := by
          simpa using h
        rw [← heq]
        exact h2

theorem scan_none_seen (dc : List Node) (offset start : Nat)
    (seen : List String) (hol : offset < dc.length)
    (hstart1 : offset ≤ start) (hstart2 : start < dc.length) :
    ∀ fuel s, offset ≤ s → s < dc.length →
      cdist dc.length offset s start ≤ fuel →
      scanStep dc offset start seen fuel s = none →
      ∀ t, offset ≤ t → t < dc.length → t ≠ start →
        cdist dc.length offset s t < cdist dc.length offset s start →
        idAt dc t ∈ seen := by
  intro fuel
  induction fuel with
  | zero =>
    intro s hs1 hs2 hcd _ t ht1 _ _ _
    have := cdist_pos dc.length offset s start hstart1 hs2
    omega
  | succ fuel ih =>
    intro s hs1 hs2 hcd hnone t ht1 ht2 htst hlt
    simp only [scanStep] at hnone
    by_cases h1 : (if s + 1 = dc.length then offset else s + 1) = start
    · have hone : cdist dc.length offset s start = 1 := by
        by_cases hw : s + 1 = dc.length
        · rw [if_pos hw] at h1
          unfold cdist
          rw [← h1, if_neg (by omega)]
          omega
        · rw [if_neg hw] at h1
          unfold cdist
          rw [← h1, if_pos (by omega)]
          omega
      have := cdist_pos dc.length offset s t ht1 hs2
      omega
    · rw [if_neg h1] at hnone
      by_cases h2 : idAt dc (if s + 1 = dc.length then offset else s + 1) ∈ seen
      · rw [if_pos h2] at hnone
        have hr1 : offset ≤ (if s + 1 = dc.length then offset else s + 1) := by
          split <;> omega
        have hr2 : (if s + 1 = dc.length then offset else s + 1) < dc.length := by
          split <;> omega
        have hstep : cdist dc.length offset
            (if s + 1 = dc.length then offset else s + 1) start + 1 =
            cdist dc.length offset s start :=
          cdist_next dc.length offset s start hol hs1 hs2 hstart1 hstart2 h1
        by_cases hts1 : t = (if s + 1 = dc.length then offset else s + 1)
        · rw [hts1]
          exact h2
        · have hstept : cdist dc.length offset
              (if s + 1 = dc.length then offset else s + 1) t + 1 =
              cdist dc.length offset s t :=
            cdist_next dc.length offset s t hol hs1 hs2 ht1 ht2
              (fun he => hts1 he.symm)
          exact ih _ hr1 hr2 (by omega) hnone t ht1 ht2 htst (by omega)
      · rw [if_neg h2] at hnone
        exact absurd hnone (by simp)

/-- C8: with a qualifying start offset inside the list, the per-datacenter
pick of host() either returns an index of an unseen node inside the
qualifying sub-range [offset, dc.length), or returns None only after the
circular forward scan has established that every index of the sub-range
holds an already-seen node. -/
theorem claim_C8_pick_terminates_or_exhausts (dc : List Node) (offset : Nat)
    (seen : List String) (r : Nat) (h : offset < dc.length) :
    (∃ s1, pickNode dc offset seen r = some s1 ∧ offset ≤ s1 ∧
      s1 < dc.length ∧ idAt dc s1 ∉ seen) ∨
    (pickNode dc offset seen r = none ∧
      ∀ i, offset ≤ i → i < dc.length → idAt dc i ∈ seen) := by
  have hs0a : offset ≤ offset + r % (dc.length - offset) := Nat.le_add_right _ _
  have hs0b : offset + r % (dc.length - offset) < dc.length := by
    have := Nat.mod_lt r (show 0 < dc.length - offset by omega)
    omega
  unfold pickNode
  by_cases h0 : idAt dc (offset + r % (dc.length - offset)) ∈ seen
  · rw [if_pos h0]
    cases hscan : scanStep dc offset (offset + r % (dc.length - offset)) seen
        (dc.length + 1) (offset + r % (dc.length - offset)) with
    | some s1 =>
      left
      have hp := scan_some_props dc offset (offset + r % (dc.length - offset))
        seen (dc.length + 1) _ s1 hs0a hs0b hscan
      exact ⟨s1, rfl, hp.1, hp.2.1, hp.2.2⟩
    | none =>
      right
      refine ⟨rfl, ?_⟩
      intro i hi1 hi2
      by_cases hieq : i = offset + r % (dc.length - offset)
      · rw [hieq]
        exact h0
      · have hfuel : cdist dc.length offset (offset + r % (dc.length - offset))
            (offset + r % (dc.length - offset)) ≤ dc.length + 1 := by
          rw [cdist_self]
          omega
        exact scan_none_seen dc offset (offset + r % (dc.length - offset)) seen
          h hs0a hs0b (dc.length + 1) _ hs0a hs0b hfuel hscan i hi1 hi2 hieq
          (cdist_lt_self dc.length offset _ i hs0a hs0b hi1 hi2 hieq)
  · rw [if_neg h0]
    left
    exact ⟨offset + r % (dc.length - offset), rfl, hs0a, hs0b, h0⟩

/-- Witness for C8 at a concrete one-node datacenter list. -/
theorem claim_C8_pick_terminates_or_exhausts_witness :
    (∃ s1, pickNode [⟨"a","d",5⟩] 0 [] 0 = some s1 ∧ 0 ≤ s1 ∧
      s1 < ([⟨"a","d",5⟩] : List Node).length ∧
      idAt [⟨"a","d",5⟩] s1 ∉ ([] : List String)) ∨
    (pickNode [⟨"a","d",5⟩] 0 [] 0 = none ∧
      ∀ i, 0 ≤ i → i < ([⟨"a","d",5⟩] : List Node).length →
        idAt [⟨"a","d",5⟩] i ∈ ([] : List String)) :=
  claim_C8_pick_terminates_or_exhausts [⟨"a","d",5⟩] 0 [] 0 (by decide)

/-! ## Seen-list invariants of host(), set() and the three-set loop -/

theorem nodup_append_single {l : List String} {a : String} (hn : l.Nodup)
    (ha : a ∉ l) : (l ++ [a]).Nodup := by
  rw [List.nodup_append]
  exact ⟨hn, List.nodup_singleton a,
    fun x hx hxa => ha ((List.mem_singleton.mp hxa) ▸ hx)⟩

theorem pickNode_some_unseen {dc : List Node} {offset : Nat}
    {seen : List String} {r s1 : Nat}
    (h : pickNode dc offset seen r = some s1) : idAt dc s1 ∉ seen := by
  unfold pickNode at h
  by_cases h0 : idAt dc (offset + r % (dc.length - offset)) ∈ seen
  · rw [if_pos h0] at h
    exact scan_some_unseen dc offset _ seen _ _ s1 h
  · rw [if_neg h0] at h
    have heq := Option.some.inj h
    rw [← heq]
    exact h0

theorem hostF_seen (m : SharkMap) (dcs : List String) (offsets : List Nat)
    (rng : Nat → Nat) (st : HostState) (r : HostRes) (st1 : HostState)
    (h : hostF m dcs offsets rng st = (r, st1)) :
    (∀ p, r = .node p → p.manta_storage_id ∉ st.seen ∧
      st1.seen = st.seen ++ [p.manta_storage_id]) ∧
    (r = .crash ∨ r = .exhausted → st1.seen = st.seen) := by
  simp only [hostF] at h
  generalize hndx : (if (dcs.length : Int) ≤ st.dcIndex + 1 then (0 : Int)
    else st.dcIndex + 1) = ndx at h
  by_cases h0 : ndx < 0 ∨ dcs.length ≤ ndx.toNat
  · rw [if_pos h0] at h
    injection h with h1 h2
    subst h1
    subst h2
    exact ⟨fun p hp => HostRes.noConfusion hp, fun _ => rfl⟩
  · rw [if_neg h0] at h
    cases hlk : lookup m (dcs.getD ndx.toNat "") with
    | none =>
      simp only [hlk] at h
      injection h with h1 h2
      subst h1
      subst h2
      exact ⟨fun p hp => HostRes.noConfusion hp, fun _ => rfl⟩
    | some dc =>
      simp only [hlk] at h
      by_cases hoff : dc.length ≤ offsets.getD ndx.toNat 0
      · rw [if_pos hoff] at h
        injection h with h1 h2
        subst h1
        subst h2
        exact ⟨fun p hp => HostRes.noConfusion hp, fun _ => rfl⟩
      · rw [if_neg hoff] at h
        cases hpick : pickNode dc (offsets.getD ndx.toNat 0) st.seen (rng st.k) with
        | none =>
          simp only [hpick] at h
          injection h with h1 h2
          subst h1
          subst h2
          exact ⟨fun p hp => HostRes.noConfusion hp, fun _ => rfl⟩
        | some s1 =>
          simp only [hpick] at h
          injection h with h1 h2
          subst h1
          subst h2
          refine ⟨fun p hp => ?_, fun hc => by rcases hc with hc | hc <;> cases hc⟩
          have hp2 := HostRes.node.inj hp
          subst hp2
          exact ⟨pickNode_some_unseen hpick, rfl⟩

theorem setLoop_built_length (m : SharkMap) (dcs : List String)
    (offsets : List Nat) (rng : Nat → Nat) :
    ∀ replicas st l st1,
      setLoop m dcs offsets rng replicas st = (.built l, st1) →
      l.length = replicas := by
  intro replicas
  induction replicas with
  | zero =>
    intro st l st1 h
    simp only [setLoop] at h
    injection h with h1 h2
    injection h1 with h3
    subst h3
    rfl
  | succ j ih =>
    intro st l st1 h
    simp only [setLoop] at h
    rcases hh : hostF m dcs offsets rng st with ⟨hr, st2⟩
    simp only [hh] at h
    cases hr with
    | crash => exact absurd h (by simp)
    | exhausted => exact absurd h (by simp)
    | node p =>
      rcases hrec : setLoop m dcs offsets rng j st2 with ⟨br, st3⟩
      simp only [hrec] at h
      cases br with
      | crash => exact absurd h (by simp)
      | fail => exact absurd h (by simp)
      | built lrec =>
        injection h with h1 h2
        injection h1 with h3
        subst h3
        simp [ih _ _ _ hrec]

theorem setLoop_seen (m : SharkMap) (dcs : List String) (offsets : List Nat)
    (rng : Nat → Nat) :
    ∀ replicas st r st1,
      setLoop m dcs offsets rng replicas st = (r, st1) → st.seen.Nodup →
      (st1.seen.Nodup ∧ ∃ ext, st1.seen = st.seen ++ ext) ∧
      (∀ l, r = .built l →
        st1.seen = st.seen ++ l.map Pick.manta_storage_id) := by
  intro replicas
  induction replicas with
  | zero =>
    intro st r st1 h hnd
    simp only [setLoop] at h
    injection h with h1 h2
    subst h2
    refine ⟨⟨hnd, [], by simp⟩, fun l hl => ?_⟩
    rw [← h1] at hl
    injection hl with h3
    subst h3
    simp
  | succ j ih =>
    intro st r st1 h hnd
    simp only [setLoop] at h
    rcases hh : hostF m dcs offsets rng st with ⟨hr, st2⟩
    simp only [hh] at h
    cases hr with
    | crash =>
      injection h with h1 h2
      subst h1
      subst h2
      have hs := (hostF_seen m dcs offsets rng st _ _ hh).2 (Or.inl rfl)
      refine ⟨⟨?_, ⟨[], ?_⟩⟩, fun l hl => by cases hl⟩
      · rw [hs]; exact hnd
      · rw [hs]; simp
    | exhausted =>
      injection h with h1 h2
      subst h1
      subst h2
      have hs := (hostF_seen m dcs offsets rng st _ _ hh).2 (Or.inr rfl)
      refine ⟨⟨?_, ⟨[], ?_⟩⟩, fun l hl => by cases hl⟩
      · rw [hs]; exact hnd
      · rw [hs]; simp
    | node p =>
      have hp := (hostF_seen m dcs offsets rng st _ _ hh).1 p rfl
      have hndA : st2.seen.Nodup := by
        rw [hp.2]
        exact nodup_append_single hnd hp.1
      rcases hrec : setLoop m dcs offsets rng j st2 with ⟨br, st3⟩
      simp only [hrec] at h
      cases br with
      | crash =>
        injection h with h1 h2
        subst h1
        subst h2
        have hr := (ih st2 _ _ hrec hndA).1
        refine ⟨⟨hr.1, ?_⟩, fun l hl => by cases hl⟩
        obtain ⟨ext, hext⟩ := hr.2
        exact ⟨p.manta_storage_id :: ext, by simp [hext, hp.2]⟩
      | fail =>
        injection h with h1 h2
        subst h1
        subst h2
        have hr := (ih st2 _ _ hrec hndA).1
        refine ⟨⟨hr.1, ?_⟩, fun l hl => by cases hl⟩
        obtain ⟨ext, hext⟩ := hr.2
        exact ⟨p.manta_storage_id :: ext, by simp [hext, hp.2]⟩
      | built lrec =>
        injection h with h1 h2
        subst h2
        have hr := ih st2 _ _ hrec hndA
        have hbuilt := hr.2 lrec rfl
        refine ⟨⟨hr.1.1, ?_⟩, fun l hl => ?_⟩
        · obtain ⟨ext, hext⟩ := hr.1.2
          exact ⟨p.manta_storage_id :: ext, by simp [hext, hp.2]⟩
        · rw [← h1] at hl
          injection hl with h3
          subst h3
          simp [hbuilt, hp.2]

/-! ## The three-set loop -/

theorem chooseLoop_step_crash (m : SharkMap) (dcs : List String)
    (offsets : List Nat) (rng : Nat → Nat) (multiDC : Bool)
    (replicas size i : Nat) (st st1 : HostState) (acc : List (List Pick))
    (hset : setLoop m dcs offsets rng replicas st = (.crash, st1)) :
    chooseLoop m dcs offsets rng multiDC replicas size (i + 1) st acc =
      .crash := by
  simp only [chooseLoop, hset]

theorem chooseLoop_step_fail (m : SharkMap) (dcs : List String)
    (offsets : List Nat) (rng : Nat → Nat) (multiDC : Bool)
    (replicas size i : Nat) (st st1 : HostState) (acc : List (List Pick))
    (hset : setLoop m dcs offsets rng replicas st = (.fail, st1)) :
    chooseLoop m dcs offsets rng multiDC replicas size (i + 1) st acc =
      if acc.length = 0 then .insufficient size exceedsMsg
      else chooseLoop m dcs offsets rng multiDC replicas size i st1 acc := by
  simp only [chooseLoop, hset]

theorem chooseLoop_step_built (m : SharkMap) (dcs : List String)
    (offsets : List Nat) (rng : Nat → Nat) (multiDC : Bool)
    (replicas size i : Nat) (st st1 : HostState) (tuple : List Pick)
    (acc : List (List Pick))
    (hset : setLoop m dcs offsets rng replicas st = (.built tuple, st1)) :
    chooseLoop m dcs offsets rng multiDC replicas size (i + 1) st acc =
      if acc.length = 0 ∧ tuple.length < replicas then
        .insufficient size exceedsMsg
      else if multiDC ∧ 1 < replicas ∧
          (dedupFold (tuple.map Pick.datacenter)).length < 2 then
        .insufficient size fewDcsMsg
      else chooseLoop m dcs offsets rng multiDC replicas size i st1
        (acc ++ [tuple]) := by
  simp only [chooseLoop, hset]

theorem chooseLoop_ok_master (m : SharkMap) (dcs : List String)
    (offsets : List Nat) (rng : Nat → Nat) (multiDC : Bool)
    (replicas size : Nat) :
    ∀ i st acc res,
      chooseLoop m dcs offsets rng multiDC replicas size i st acc = .ok res →
      st.seen.Nodup →
      (acc.flatten.map Pick.manta_storage_id).Sublist st.seen →
      ∃ ext, res = acc ++ ext ∧ ext.length ≤ i ∧
        (∀ t ∈ ext, t.length = replicas) ∧
        (multiDC = true → 1 < replicas →
          ∀ t ∈ ext, 2 ≤ (dedupFold (t.map Pick.datacenter)).length) ∧
        (res.flatten.map Pick.manta_storage_id).Nodup := by
  intro i
  induction i with
  | zero =>
    intro st acc res h hnd hsub
    injection h with h1
    subst h1
    exact ⟨[], by simp, by simp, fun t ht => absurd ht (List.not_mem_nil t),
      fun _ _ t ht => absurd ht (List.not_mem_nil t),
      List.Nodup.sublist hsub hnd⟩
  | succ i ih =>
    intro st acc res h hnd hsub
    rcases hset : setLoop m dcs offsets rng replicas st with ⟨sr, st1⟩
    have hseen := setLoop_seen m dcs offsets rng replicas st sr st1 hset hnd
    cases sr with
    | crash =>
      rw [chooseLoop_step_crash m dcs offsets rng multiDC replicas size i st
        st1 acc hset] at h
      exact ChooseOutcome.noConfusion h
    | fail =>
      rw [chooseLoop_step_fail m dcs offsets rng multiDC replicas size i st
        st1 acc hset] at h
      by_cases hacc : acc.length = 0
      · rw [if_pos hacc] at h
        exact ChooseOutcome.noConfusion h
      · rw [if_neg hacc] at h
        obtain ⟨ext2, hext2⟩ := hseen.1.2
        have hsub1 : (acc.flatten.map Pick.manta_storage_id).Sublist st1.seen := by
          rw [hext2]
          exact List.Sublist.trans hsub (List.sublist_append_left _ _)
        obtain ⟨ext, hres, hlen, hrep, hsp, hnodup⟩ :=
          ih st1 acc res h hseen.1.1 hsub1
        exact ⟨ext, hres, by omega, hrep, hsp, hnodup⟩
    | built tuple =>
      rw [chooseLoop_step_built m dcs offsets rng multiDC replicas size i st
        st1 tuple acc hset] at h
      have hseenb := hseen.2 tuple rfl
      by_cases hc1 : acc.length = 0 ∧ tuple.length < replicas
      · rw [if_pos hc1] at h
        exact ChooseOutcome.noConfusion h
      · rw [if_neg hc1] at h
        by_cases hc2 : multiDC ∧ 1 < replicas ∧
            (dedupFold (tuple.map Pick.datacenter)).length < 2
        · rw [if_pos hc2] at h
          exact ChooseOutcome.noConfusion h
        · rw [if_neg hc2] at h
          have hsub2 : ((acc ++ [tuple]).flatten.map
              Pick.manta_storage_id).Sublist st1.seen := by
            rw [hseenb]
            have heq2 : (acc ++ [tuple]).flatten.map Pick.manta_storage_id =
                acc.flatten.map Pick.manta_storage_id ++
                  tuple.map Pick.manta_storage_id := by
              simp
            rw [heq2]
            exact List.Sublist.append hsub (List.Sublist.refl _)
          obtain ⟨ext, hres, hlen, hrep, hsp, hnodup⟩ :=
            ih st1 (acc ++ [tuple]) res h hseen.1.1 hsub2
          refine ⟨tuple :: ext, ?_, ?_, ?_, ?_, hnodup⟩
          · rw [hres, List.append_assoc]
            rfl
          · simp only [List.length_cons]
            omega
          · intro t ht
            rcases List.mem_cons.mp ht with rfl | ht
            · exact setLoop_built_length m dcs offsets rng replicas st t st1 hset
            · exact hrep t ht
          · intro hm hr t ht
            rcases List.mem_cons.mp ht with rfl | ht
            · by_cases hd : (dedupFold (t.map Pick.datacenter)).length < 2
              · exact absurd ⟨hm, hr, hd⟩ hc2
              · omega
            · exact hsp hm hr t ht

theorem chooseLoop_acc_le (m : SharkMap) (dcs : List String)
    (offsets : List Nat) (rng : Nat → Nat) (multiDC : Bool)
    (replicas size : Nat) :
    ∀ i st acc res,
      chooseLoop m dcs offsets rng multiDC replicas size i st acc = .ok res →
      acc.length ≤ res.length := by
  intro i
  induction i with
  | zero =>
    intro st acc res h
    injection h with h1
    subst h1
    exact le_refl _
  | succ i ih =>
    intro st acc res h
    rcases hset : setLoop m dcs offsets rng replicas st with ⟨sr, st1⟩
    cases sr with
    | crash =>
      rw [chooseLoop_step_crash m dcs offsets rng multiDC replicas size i st
        st1 acc hset] at h
      exact ChooseOutcome.noConfusion h
    | fail =>
      rw [chooseLoop_step_fail m dcs offsets rng multiDC replicas size i st
        st1 acc hset] at h
      by_cases hacc : acc.length = 0
      · rw [if_pos hacc] at h
        exact ChooseOutcome.noConfusion h
      · rw [if_neg hacc] at h
        exact ih st1 acc res h
    | built tuple =>
      rw [chooseLoop_step_built m dcs offsets rng multiDC replicas size i st
        st1 tuple acc hset] at h
      by_cases hc1 : acc.length = 0 ∧ tuple.length < replicas
      · rw [if_pos hc1] at h
        exact ChooseOutcome.noConfusion h
      · rw [if_neg hc1] at h
        by_cases hc2 : multiDC ∧ 1 < replicas ∧
            (dedupFold (tuple.map Pick.datacenter)).length < 2
        · rw [if_pos hc2] at h
          exact ChooseOutcome.noConfusion h
        · rw [if_neg hc2] at h
          have hle := ih st1 (acc ++ [tuple]) res h
          rw [List.length_append] at hle
          simp only [List.length_singleton] at hle
          omega

theorem chooseLoop_ok_ne_nil (m : SharkMap) (dcs : List String)
    (offsets : List Nat) (rng : Nat → Nat) (multiDC : Bool)
    (replicas size : Nat) (i : Nat) (st : HostState) (res : List (List Pick))
    (h : chooseLoop m dcs offsets rng multiDC replicas size (i + 1) st [] =
      .ok res) : res ≠ [] := by
  rcases hset : setLoop m dcs offsets rng replicas st with ⟨sr, st1⟩
  cases sr with
  | crash =>
    rw [chooseLoop_step_crash m dcs offsets rng multiDC replicas size i st
      st1 [] hset] at h
    exact ChooseOutcome.noConfusion h
  | fail =>
    rw [chooseLoop_step_fail m dcs offsets rng multiDC replicas size i st
      st1 [] hset] at h
    rw [if_pos (by simp)] at h
    exact ChooseOutcome.noConfusion h
  | built tuple =>
    rw [chooseLoop_step_built m dcs offsets rng multiDC replicas size i st
      st1 tuple [] hset] at h
    by_cases hc1 : List.length ([] : List (List Pick)) = 0 ∧
        tuple.length < replicas
    · rw [if_pos hc1] at h
      exact ChooseOutcome.noConfusion h
    · rw [if_neg hc1] at h
      by_cases hc2 : multiDC ∧ 1 < replicas ∧
          (dedupFold (tuple.map Pick.datacenter)).length < 2
      · rw [if_pos hc2] at h
        exact ChooseOutcome.noConfusion h
      · rw [if_neg hc2] at h
        have hle := chooseLoop_acc_le m dcs offsets rng multiDC replicas size
          i st1 ([] ++ [tuple]) res h
        intro hres
        subst hres
        simp at hle

theorem chooseLoop_first_fail (m : SharkMap) (dcs : List String)
    (offsets : List Nat) (rng : Nat → Nat) (multiDC : Bool)
    (replicas size i : Nat) (st st1 : HostState)
    (h : setLoop m dcs offsets rng replicas st = (.fail, st1)) :
    chooseLoop m dcs offsets rng multiDC replicas size (i + 1) st [] =
      .insufficient size exceedsMsg := by
  rw [chooseLoop_step_fail m dcs offsets rng multiDC replicas size i st st1 []
    h]
  rw [if_pos (by simp)]

theorem chooseLoop_backup_fail (m : SharkMap) (dcs : List String)
    (offsets : List Nat) (rng : Nat → Nat) (multiDC : Bool)
    (replicas size i : Nat) (st st1 : HostState) (acc : List (List Pick))
    (hacc : acc ≠ [])
    (h : setLoop m dcs offsets rng replicas st = (.fail, st1)) :
    chooseLoop m dcs offsets rng multiDC replicas size (i + 1) st acc =
      chooseLoop m dcs offsets rng multiDC replicas size i st1 acc := by
  rw [chooseLoop_step_fail m dcs offsets rng multiDC replicas size i st st1
    acc h]
  rw [if_neg (by simpa [List.length_eq_zero] using hacc)]

theorem chooseLoop_causes (m : SharkMap) (dcs : List String)
    (offsets : List Nat) (rng : Nat → Nat) (multiDC : Bool)
    (replicas size : Nat) :
    ∀ i st acc s c,
      chooseLoop m dcs offsets rng multiDC replicas size i st acc =
        .insufficient s c →
      c = exceedsMsg ∨ c = fewDcsMsg := by
  intro i
  induction i with
  | zero =>
    intro st acc s c h
    exact ChooseOutcome.noConfusion h
  | succ i ih =>
    intro st acc s c h
    rcases hset : setLoop m dcs offsets rng replicas st with ⟨sr, st1⟩
    cases sr with
    | crash =>
      rw [chooseLoop_step_crash m dcs offsets rng multiDC replicas size i st
        st1 acc hset] at h
      exact ChooseOutcome.noConfusion h
    | fail =>
      rw [chooseLoop_step_fail m dcs offsets rng multiDC replicas size i st
        st1 acc hset] at h
      by_cases hacc : acc.length = 0
      · rw [if_pos hacc] at h
        injection h with h1 h2
        exact Or.inl h2.symm
      · rw [if_neg hacc] at h
        exact ih st1 acc s c h
    | built tuple =>
      rw [chooseLoop_step_built m dcs offsets rng multiDC replicas size i st
        st1 tuple acc hset] at h
      by_cases hc1 : acc.length = 0 ∧ tuple.length < replicas
      · rw [if_pos hc1] at h
        injection h with h1 h2
        exact Or.inl h2.symm
      · rw [if_neg hc1] at h
        by_cases hc2 : multiDC ∧ 1 < replicas ∧
            (dedupFold (tuple.map Pick.datacenter)).length < 2
        · rw [if_pos hc2] at h
          injection h with h1 h2
          exact Or.inr h2.symm
        · rw [if_neg hc2] at h
          exact ih st1 (acc ++ [tuple]) s c h

/-! ## The distinct-datacenter fold -/

theorem dedupFold_core_nodup :
    ∀ (l acc : List String), acc.Nodup →
      (l.foldl (fun last now => if now ∈ last then last else last ++ [now])
        acc).Nodup := by
  intro l
  induction l with
  | nil => intro acc h; exact h
  | cons a t ih =>
    intro acc h
    simp only [List.foldl_cons]
    by_cases ha : a ∈ acc
    · rw [if_pos ha]
      exact ih acc h
    · rw [if_neg ha]
      exact ih _ (nodup_append_single h ha)

theorem dedupFold_core_mem :
    ∀ (l acc : List String) (x : String),
      x ∈ l.foldl (fun last now => if now ∈ last then last else last ++ [now])
        acc →
      x ∈ acc ∨ x ∈ l := by
  intro l
  induction l with
  | nil =>
    intro acc x h
    exact Or.inl h
  | cons a t ih =>
    intro acc x h
    simp only [List.foldl_cons] at h
    by_cases ha : a ∈ acc
    · rw [if_pos ha] at h
      rcases ih _ x h with h2 | h2
      · exact Or.inl h2
      · exact Or.inr (List.mem_cons_of_mem a h2)
    · rw [if_neg ha] at h
      rcases ih _ x h with h2 | h2
      · rcases List.mem_append.mp h2 with h3 | h3
        · exact Or.inl h3
        · rw [List.mem_singleton.mp h3]
          exact Or.inr (List.mem_cons_self a t)
      · exact Or.inr (List.mem_cons_of_mem a h2)

theorem dedupFold_two {l : List String}
    (h : 2 ≤ (dedupFold l).length) : ∃ a ∈ l, ∃ b ∈ l, a ≠ b := by
  have hnd : (dedupFold l).Nodup := dedupFold_core_nodup l [] List.nodup_nil
  rcases hdl : dedupFold l with - | ⟨a, - | ⟨b, t⟩⟩
  · rw [hdl] at h
    simp at h
  · rw [hdl] at h
    simp at h
  · rw [hdl] at hnd
    have hab : a ≠ b := by
      have hcons := List.pairwise_cons.mp hnd
      exact hcons.1 b (List.mem_cons_self b t)
    have hmem : ∀ x, x ∈ dedupFold l → x ∈ l := by
      intro x hx
      rcases dedupFold_core_mem l [] x hx with h2 | h2
      · exact absurd h2 (List.not_mem_nil x)
      · exact h2
    refine ⟨a, hmem a (by rw [hdl]; exact List.mem_cons_self _ _),
      b, hmem b (by rw [hdl]; simp), hab⟩

/-! ## Unfolding choose down to the three-set loop -/

theorem choose_ok_unfold (st : ClientState) (opts : ChooseOpts)
    (rng : Nat → Nat) (res : List (List Pick))
    (h : choose st opts rng = .ok res) :
    ∃ m names cands,
      (if opts.isOperator then st.operatorDcSharkMap else st.dcSharkMap) =
        some m ∧
      (if opts.isOperator then st.operatorDatacenters else st.datacenters) =
        some names ∧
      filterDCs m (effectiveSize opts.size st.defMaxSizeMB) names =
        some cands ∧
      chooseLoop m
        (shuffleGo rng 0 (cands.map Prod.fst).length (cands.map Prod.fst))
        (cands.map Prod.snd) rng st.multiDC (replicasOf opts.replicas)
        (effectiveSize opts.size st.defMaxSizeMB) 3
        { dcIndex := st.dcIndex, seen := [], k := (cands.map Prod.fst).length }
        [] = .ok res := by
  simp only [choose] at h
  split at h
  · rename_i m names hm hn
    rcases hf : filterDCs m (effectiveSize opts.size st.defMaxSizeMB) names
      with - | cands
    · simp only [hf] at h
      exact ChooseOutcome.noConfusion h
    · simp only [hf] at h
      by_cases h1 : (cands.map Prod.fst).length = 0
      · rw [if_pos h1] at h
        exact ChooseOutcome.noConfusion h
      · rw [if_neg h1] at h
        by_cases h2 : 1 < replicasOf opts.replicas ∧ st.multiDC ∧
            (cands.map Prod.fst).length < 2
        · rw [if_pos h2] at h
          exact ChooseOutcome.noConfusion h
        · rw [if_neg h2] at h
          exact ⟨m, names, cands, hm, hn, hf, h⟩
  · exact ChooseOutcome.noConfusion h

/-! ## Concrete fixtures used by witnesses and counterexamples -/

def twoDcMap : SharkMap :=
  [("dc1", [⟨"a","dc1",10⟩]), ("dc2", [⟨"b","dc2",10⟩])]

def twoDcState : ClientState :=
  { dcSharkMap := some twoDcMap
    operatorDcSharkMap := some twoDcMap
    datacenters := some ["dc1","dc2"]
    operatorDatacenters := some ["dc1","dc2"]
    dcIndex := -1
    multiDC := true
    defMaxSizeMB := 5120 }

def oneMBOpts : ChooseOpts :=
  { size := some 1048576, replicas := none, isOperator := false }

def zeroRng : Nat → Nat := fun _ => 0

def oneDcMap : SharkMap := [("dc1", [⟨"a","dc1",10⟩, ⟨"c","dc1",10⟩])]

/-- C3: on every successful choose call no returned replica set contains a
duplicate node id and no node id appears in more than one returned set; the
seen list is created empty inside choose (reset per invocation) and shared by
all sets of one invocation, which is what the flattened-result Nodup
expresses. -/
theorem claim_C3_no_duplicate_node_ids (st : ClientState) (opts : ChooseOpts)
    (rng : Nat → Nat) (sharks : List (List Pick))
    (h : choose st opts rng = .ok sharks) :
    (sharks.flatten.map Pick.manta_storage_id).Nodup ∧
    (∀ t ∈ sharks, (t.map Pick.manta_storage_id).Nodup) ∧
    List.Pairwise (fun t1 t2 => ∀ x ∈ t1, ∀ y ∈ t2,
      x.manta_storage_id ≠ y.manta_storage_id) sharks := by
  obtain ⟨m, names, cands, -, -, -, hloop⟩ :=
    choose_ok_unfold st opts rng sharks h
  obtain ⟨ext, -, -, -, -, hnodup⟩ :=
    chooseLoop_ok_master _ _ _ _ _ _ _ 3 _ [] sharks hloop List.nodup_nil
      (by simp)
  have h2 : ((sharks.map (List.map Pick.manta_storage_id)).flatten).Nodup := by
    rw [← List.map_flatten]
    exact hnodup
  have h3 := List.nodup_flatten.mp h2
  refine ⟨hnodup, ?_, ?_⟩
  · intro t ht
    exact h3.1 _ (List.mem_map_of_mem _ ht)
  · have hp := h3.2
    rw [List.pairwise_map] at hp
    refine hp.imp ?_
    intro t1 t2 hd x hx y hy heq
    have hy2 : x.manta_storage_id ∈ t2.map Pick.manta_storage_id := by
      rw [heq]
      exact List.mem_map_of_mem _ hy
    exact hd (List.mem_map_of_mem _ hx) hy2

/-- Witness for C3 on a concrete successful two-datacenter call. -/
theorem claim_C3_no_duplicate_node_ids_witness :
    (([[⟨"dc2","b"⟩, ⟨"dc1","a"⟩]] : List (List Pick)).flatten.map
      Pick.manta_storage_id).Nodup ∧
    (∀ t ∈ ([[⟨"dc2","b"⟩, ⟨"dc1","a"⟩]] : List (List Pick)),
      (t.map Pick.manta_storage_id).Nodup) ∧
    List.Pairwise (fun t1 t2 => ∀ x ∈ t1, ∀ y ∈ t2,
      x.manta_storage_id ≠ y.manta_storage_id)
      ([[⟨"dc2","b"⟩, ⟨"dc1","a"⟩]] : List (List Pick)) :=
  claim_C3_no_duplicate_node_ids twoDcState oneMBOpts zeroRng
    [[⟨"dc2","b"⟩, ⟨"dc1","a"⟩]] (by decide)

/-- C2: with multi-datacenter mode on and more than one replica, every
replica set of a successful choose result spans at least two distinct
datacenters; and a built set whose distinct-datacenter count is below two
makes the whole call fail with InsufficientSpace citing
"insufficient number of DCs selected". -/
theorem claim_C2_multiDC_spread_enforced :
    (∀ (st : ClientState) (opts : ChooseOpts) (rng : Nat → Nat)
      (sharks : List (List Pick)),
      st.multiDC = true → 1 < replicasOf opts.replicas →
      choose st opts rng = .ok sharks →
      ∀ t ∈ sharks, ∃ p ∈ t, ∃ q ∈ t, p.datacenter ≠ q.datacenter) ∧
    (∀ (m : SharkMap) (dcs : List String) (offsets : List Nat)
      (rng : Nat → Nat) (replicas size i : Nat) (st st1 : HostState)
      (tuple : List Pick) (acc : List (List Pick)),
      setLoop m dcs offsets rng replicas st = (.built tuple, st1) →
      (dedupFold (tuple.map Pick.datacenter)).length < 2 →
      1 < replicas →
      chooseLoop m dcs offsets rng true replicas size (i + 1) st acc =
        .insufficient size fewDcsMsg) := by
  constructor
  · intro st opts rng sharks hm hr h t ht
    obtain ⟨m, names, cands, -, -, -, hloop⟩ :=
      choose_ok_unfold st opts rng sharks h
    obtain ⟨ext, hres, -, -, hsp, -⟩ :=
      chooseLoop_ok_master _ _ _ _ _ _ _ 3 _ [] sharks hloop List.nodup_nil
        (by simp)
    rw [hres] at ht
    simp only [List.nil_append] at ht
    obtain ⟨a, ha, b, hb, hab⟩ := dedupFold_two (hsp hm hr t ht)
    obtain ⟨p, hp, hpa⟩ := List.mem_map.mp ha
    obtain ⟨q, hq, hqb⟩ := List.mem_map.mp hb
    refine ⟨p, hp, q, hq, ?_⟩
    rw [hpa, hqb]
    exact hab
  · intro m dcs offsets rng replicas size i st st1 tuple acc hset hd hr
    rw [chooseLoop_step_built m dcs offsets rng true replicas size i st st1
      tuple acc hset]
    have hlen := setLoop_built_length m dcs offsets rng replicas st tuple st1
      hset
    have hnot : ¬ (acc.length = 0 ∧ tuple.length < replicas) := by
      intro hc
      omega
    rw [if_neg hnot]
    rw [if_pos ⟨rfl, hr, hd⟩]

/-- Witness for C2: a successful spread-respecting set, and a concrete
single-datacenter built set that fails the call. -/
theorem claim_C2_multiDC_spread_enforced_witness :
    (∃ p ∈ ([⟨"dc2","b"⟩, ⟨"dc1","a"⟩] : List Pick),
      ∃ q ∈ ([⟨"dc2","b"⟩, ⟨"dc1","a"⟩] : List Pick),
        p.datacenter ≠ q.datacenter) ∧
    chooseLoop oneDcMap ["dc1"] [0] zeroRng true 2 5 3 ⟨-1, [], 0⟩ [] =
      .insufficient 5 fewDcsMsg :=
  ⟨claim_C2_multiDC_spread_enforced.1 twoDcState oneMBOpts zeroRng
      [[⟨"dc2","b"⟩, ⟨"dc1","a"⟩]] rfl (by decide) (by decide)
      [⟨"dc2","b"⟩, ⟨"dc1","a"⟩] (by decide),
    claim_C2_multiDC_spread_enforced.2 oneDcMap ["dc1"] [0] zeroRng 2 5 2
      ⟨-1, [], 0⟩ ⟨0, ["a","c"], 2⟩ [⟨"dc1","a"⟩, ⟨"dc1","c"⟩] [] (by decide)
      (by decide) (by decide)⟩

/-- C6: a successful choose result is an ordered sequence of 1 to 3 replica
sets, each with exactly replicas members; a failing first set makes the call
fail with InsufficientSpace, while a failing second or third set is silently
omitted (the loop just continues with the sets built so far). -/
theorem claim_C6_result_shape_first_set_fatal :
    (∀ (st : ClientState) (opts : ChooseOpts) (rng : Nat → Nat)
      (sharks : List (List Pick)), choose st opts rng = .ok sharks →
      1 ≤ sharks.length ∧ sharks.length ≤ 3 ∧
        ∀ t ∈ sharks, t.length = replicasOf opts.replicas) ∧
    (∀ (m : SharkMap) (dcs : List String) (offsets : List Nat)
      (rng : Nat → Nat) (multiDC : Bool) (replicas size i : Nat)
      (st st1 : HostState),
      setLoop m dcs offsets rng replicas st = (.fail, st1) →
      chooseLoop m dcs offsets rng multiDC replicas size (i + 1) st [] =
        .insufficient size exceedsMsg) ∧
    (∀ (m : SharkMap) (dcs : List String) (offsets : List Nat)
      (rng : Nat → Nat) (multiDC : Bool) (replicas size i : Nat)
      (st st1 : HostState) (acc : List (List Pick)), acc ≠ [] →
      setLoop m dcs offsets rng replicas st = (.fail, st1) →
      chooseLoop m dcs offsets rng multiDC replicas size (i + 1) st acc =
        chooseLoop m dcs offsets rng multiDC replicas size i st1 acc) := by
  refine ⟨?_, ?_, ?_⟩
  · intro st opts rng sharks h
    obtain ⟨m, names, cands, -, -, -, hloop⟩ :=
      choose_ok_unfold st opts rng sharks h
    obtain ⟨ext, hres, hlen, hrep, -, -⟩ :=
      chooseLoop_ok_master _ _ _ _ _ _ _ 3 _ [] sharks hloop List.nodup_nil
        (by simp)
    have hne := chooseLoop_ok_ne_nil _ _ _ _ _ _ _ 2 _ sharks hloop
    refine ⟨List.length_pos.mpr hne, ?_, ?_⟩
    · rw [hres]
      simpa using hlen
    · intro t ht
      rw [hres] at ht
      simp only [List.nil_append] at ht
      exact hrep t ht
  · intro m dcs offsets rng multiDC replicas size i st st1 h
    exact chooseLoop_first_fail m dcs offsets rng multiDC replicas size i st
      st1 h
  · intro m dcs offsets rng multiDC replicas size i st st1 acc hacc h
    exact chooseLoop_backup_fail m dcs offsets rng multiDC replicas size i st
      st1 acc hacc h

/-- Witness for C6 on a concrete run that returns one full set, plus a
concrete failing first set and a concrete omitted backup set. -/
theorem claim_C6_result_shape_first_set_fatal_witness :
    (1 ≤ ([[⟨"dc2","b"⟩, ⟨"dc1","a"⟩]] : List (List Pick)).length ∧
      ([[⟨"dc2","b"⟩, ⟨"dc1","a"⟩]] : List (List Pick)).length ≤ 3 ∧
      ∀ t ∈ ([[⟨"dc2","b"⟩, ⟨"dc1","a"⟩]] : List (List Pick)),
        t.length = replicasOf oneMBOpts.replicas) ∧
    chooseLoop twoDcMap ["dc1","dc2"] [0,0] zeroRng true 2 7 3
      ⟨-1, ["a","b"], 0⟩ [] = .insufficient 7 exceedsMsg ∧
    chooseLoop twoDcMap ["dc1","dc2"] [0,0] zeroRng true 2 7 3
      ⟨-1, ["a","b"], 0⟩ [[⟨"dc1","x"⟩]] =
      chooseLoop twoDcMap ["dc1","dc2"] [0,0] zeroRng true 2 7 2
        ⟨0, ["a","b"], 1⟩ [[⟨"dc1","x"⟩]] :=
  ⟨claim_C6_result_shape_first_set_fatal.1 twoDcState oneMBOpts zeroRng
      [[⟨"dc2","b"⟩, ⟨"dc1","a"⟩]] (by decide),
    claim_C6_result_shape_first_set_fatal.2.1 twoDcMap ["dc1","dc2"] [0,0]
      zeroRng true 2 7 2 ⟨-1, ["a","b"], 0⟩ ⟨0, ["a","b"], 1⟩ (by decide),
    claim_C6_result_shape_first_set_fatal.2.2 twoDcMap ["dc1","dc2"] [0,0]
      zeroRng true 2 7 2 ⟨-1, ["a","b"], 0⟩ ⟨0, ["a","b"], 1⟩ [[⟨"dc1","x"⟩]]
      (by decide) (by decide)⟩

/-! ## Precheck failures of choose (C5) -/

def smallMap : SharkMap := [("dc1", [⟨"a","dc1",1⟩])]

def smallState : ClientState :=
  { dcSharkMap := some smallMap
    operatorDcSharkMap := some smallMap
    datacenters := some ["dc1"]
    operatorDatacenters := some ["dc1"]
    dcIndex := -1
    multiDC := true
    defMaxSizeMB := 5120 }

def fiveMBOpts : ChooseOpts :=
  { size := some 5242880, replicas := some 2, isOperator := false }

/-- C5 counterexample: the code's cause string is 'no DC with sufficient
space', not "no datacenter with sufficient space" as the claim quotes. -/
theorem claim_C5_counterexample_reason_string :
    choose smallState fiveMBOpts zeroRng =
      .insufficient 5 "no DC with sufficient space" ∧
    "no DC with sufficient space" ≠ "no datacenter with sufficient space" :=
  ⟨by decide, by decide⟩

/-- C5 (amended reason string): with the shark map and datacenter list
installed and the capacity filter returning the candidate list cands, choose
fails before building any set exactly in the two precheck cases: zero
candidates — cause 'no DC with sufficient space' — or more than one replica
with multi-datacenter mode on and fewer than two candidates — cause citing
the counts; otherwise it proceeds to the set-building loop, whose own
InsufficientSpace causes are only the two build-stage strings. -/
theorem claim_C5_precheck_failures (st : ClientState) (opts : ChooseOpts)
    (rng : Nat → Nat) (m : SharkMap) (names : List String)
    (cands : List (String × Nat))
    (hm : (if opts.isOperator then st.operatorDcSharkMap else st.dcSharkMap) =
      some m)
    (hn : (if opts.isOperator then st.operatorDatacenters else st.datacenters)
      = some names)
    (hf : filterDCs m (effectiveSize opts.size st.defMaxSizeMB) names =
      some cands) :
    (cands = [] → choose st opts rng =
      .insufficient (effectiveSize opts.size st.defMaxSizeMB) noDcMsg) ∧
    (cands ≠ [] → 1 < replicasOf opts.replicas → st.multiDC = true →
      cands.length < 2 →
      choose st opts rng =
        .insufficient (effectiveSize opts.size st.defMaxSizeMB)
          (countMsg (replicasOf opts.replicas) cands.length)) ∧
    (cands ≠ [] →
      ¬ (1 < replicasOf opts.replicas ∧ st.multiDC = true ∧
        cands.length < 2) →
      choose st opts rng =
        chooseLoop m
          (shuffleGo rng 0 (cands.map Prod.fst).length (cands.map Prod.fst))
          (cands.map Prod.snd) rng st.multiDC (replicasOf opts.replicas)
          (effectiveSize opts.size st.defMaxSizeMB) 3
          { dcIndex := st.dcIndex, seen := [],
            k := (cands.map Prod.fst).length } []) ∧
    (∀ s c, choose st opts rng = .insufficient s c →
      c = noDcMsg ∨ c = countMsg (replicasOf opts.replicas) cands.length ∨
        c = exceedsMsg ∨ c = fewDcsMsg) := by
  refine ⟨?_, ?_, ?_, ?_⟩
  · intro hc
    subst hc
    simp only [choose, hm, hn, hf]
    rfl
  · intro hc hr hmd hlt
    simp only [choose, hm, hn, hf, List.length_map]
    rw [if_neg (fun h0 => hc (List.length_eq_zero.mp h0))]
    rw [if_pos ⟨hr, hmd, hlt⟩]
  · intro hc hneg
    simp only [choose, hm, hn, hf, List.length_map]
    rw [if_neg (fun h0 => hc (List.length_eq_zero.mp h0))]
    rw [if_neg hneg]
  · intro s c hcc
    simp only [choose, hm, hn, hf, List.length_map] at hcc
    by_cases h0 : cands.length = 0
    · rw [if_pos h0] at hcc
      injection hcc with h1 h2
      exact Or.inl h2.symm
    · rw [if_neg h0] at hcc
      by_cases h1 : 1 < replicasOf opts.replicas ∧ st.multiDC ∧
          cands.length < 2
      · rw [if_pos h1] at hcc
        injection hcc with h2 h3
        exact Or.inr (Or.inl h3.symm)
      · rw [if_neg h1] at hcc
        rcases chooseLoop_causes _ _ _ _ _ _ _ 3 _ [] s c hcc with h2 | h2
        · exact Or.inr (Or.inr (Or.inl h2))
        · exact Or.inr (Or.inr (Or.inr h2))

/-- Witness for C5 on the concrete no-qualifying-node snapshot. -/
theorem claim_C5_precheck_failures_witness :
    choose smallState fiveMBOpts zeroRng = .insufficient 5 noDcMsg :=
  (claim_C5_precheck_failures smallState fiveMBOpts zeroRng smallMap ["dc1"]
    [] (by decide) (by decide) (by decide)).1 rfl

/-! ## choose at construction and on an empty installed snapshot (C7) -/

/-- C7 counterexample: immediately after client construction the snapshot
fields are null, and choose crashes with a TypeError instead of delivering a
result or an InsufficientSpace error. -/
theorem claim_C7_counterexample_initial_crash :
    choose (initialState true 5120) oneMBOpts zeroRng = .crash := by
  decide

/-- C7 (amended): choose never involves the standalone-mode error; it needs
an installed snapshot rather than the at-construction state: on the
at-construction state (null maps) every call crashes, and after installing
the empty snapshot (zero datacenters) choose delivers an InsufficientSpace
error to its callback instead of throwing, for every request and every
entropy stream. (A non-empty installed snapshot gives no such guarantee in
general: the shuffle/offsets misalignment of C1 can drive host() to an
out-of-range index and a TypeError.) -/
theorem claim_C7_choose_needs_installed_snapshot (multiDC : Bool)
    (defMax : Nat) (opts : ChooseOpts) (rng : Nat → Nat) :
    choose (initialState multiDC defMax) opts rng = .crash ∧
    choose (sortAndStoreDcs (initialState multiDC defMax) [] []) opts rng =
      .insufficient (effectiveSize opts.size defMax) noDcMsg := by
  rcases opts with ⟨osize, orep, iop⟩
  cases iop <;> exact ⟨rfl, rfl⟩

/-! ## The shuffle/offsets misalignment (C1) -/

def misalignedMap : SharkMap :=
  [("dc1", [⟨"a1","dc1",5⟩, ⟨"a2","dc1",5⟩]),
   ("dc2", [⟨"b1","dc2",1⟩, ⟨"b2","dc2",5⟩])]

def misalignedState : ClientState :=
  { dcSharkMap := some misalignedMap
    operatorDcSharkMap := some misalignedMap
    datacenters := some ["dc1","dc2"]
    operatorDatacenters := some ["dc1","dc2"]
    dcIndex := -1
    multiDC := true
    defMaxSizeMB := 5120 }

/-- C1: the code violates the claim. On a snapshot whose datacenter lists are
sorted ascending and where both datacenters hold a node with availableMB at
least the requested 5 MB, choose succeeds but the returned primary set
contains node b1, whose availableMB in the snapshot is 1 < 5: shuffle
permutes dcs in place while the parallel offsets array keeps the pre-shuffle
order, so dc2 is sampled with dc1's qualifying offset 0 instead of its own
offset 1. -/
theorem claim_C1_returned_member_below_size :
    choose misalignedState fiveMBOpts zeroRng =
      .ok [[⟨"dc2","b1"⟩, ⟨"dc1","a2"⟩]] ∧
    effectiveSize fiveMBOpts.size misalignedState.defMaxSizeMB = 5 ∧
    sortedByAvail [⟨"a1","dc1",5⟩, ⟨"a2","dc1",5⟩] ∧
    sortedByAvail [⟨"b1","dc2",1⟩, ⟨"b2","dc2",5⟩] ∧
    lookup misalignedMap "dc2" = some [⟨"b1","dc2",1⟩, ⟨"b2","dc2",5⟩] ∧
    lower_bound [⟨"b1","dc2",1⟩, ⟨"b2","dc2",5⟩] 5 = 1 ∧
    availAt [⟨"b1","dc2",1⟩, ⟨"b2","dc2",5⟩] 0 = 1 ∧
    idAt [⟨"b1","dc2",1⟩, ⟨"b2","dc2",5⟩] 0 = "b1" ∧ (1 : Nat) < 5 :=
  ⟨by decide, by decide, by decide, by decide, by decide, by decide,
    by decide, by decide, by decide⟩

/-! ## Size and replica defaulting (C9) -/

/-- C9: the effective size used by choose is the byte size rounded up to a
whole number of MB; a request without a size falls back to the client's
defMaxSizeMB, whose configuration default is 5120; the replica count
defaults to 2. -/
theorem claim_C9_size_and_replica_defaults :
    (∀ b d, 0 < b → effectiveSize (some b) d = (b + 1048575) / 1048576) ∧
    (∀ d, effectiveSize none d = d) ∧
    defMaxOf none = 5120 ∧
    replicasOf none = 2 := by
  refine ⟨?_, ?_, rfl, rfl⟩
  · intro b d hb
    simp only [effectiveSize, ceilMB, Option.getD]
    rw [if_neg (by omega)]
  · intro d
    simp only [effectiveSize, ceilMB, Option.getD]
    norm_num

/-- Witness for C9 at a concrete byte size just above 1 MB. -/
theorem claim_C9_size_and_replica_defaults_witness :
    effectiveSize (some 1048577) 7 = (1048577 + 1048575) / 1048576 ∧
    effectiveSize none 7 = 7 :=
  ⟨claim_C9_size_and_replica_defaults.1 1048577 7 (by decide),
    claim_C9_size_and_replica_defaults.2.1 7⟩

end Storinfo
